/-
Verification of the frame scoring, classification, and variety-constrained
selection engine of the video-to-screenshot pipeline
(src/packages/desktop/python/screenshot_tool/pipeline.py).

Shallow embedding conventions:
* Python floats are modelled as rationals (ℚ); all arithmetic is exact.
* Python dict records become structures; `dict.get(k, default)` becomes a
  field that is always present, holding the default when the Python code
  would have supplied it.
* Python lists become `List`; Python sets are modelled by lists whose
  set-level cardinalities are taken after `dedup`.
* `sorted(..., reverse=True)` / `list.sort(..., reverse=True)` (a stable
  sort) is modelled by `List.insertionSort` with the corresponding
  "greater or equal" relation, which is also a stable sort.
-/
import Mathlib

/-- `np.clip(x, lo, hi)` from the source. -/
def clip (x lo hi : ℚ) : ℚ := min hi (max lo x)

/-- `FaceDetector._estimate_smile_106`, lines 293-298 of pipeline.py:
`width_ratio = mouth_width / eye_distance if eye_distance > 0 else 0` and
`width_score = np.clip((width_ratio - 0.9) * 3, 0.0, 1.0)`, as a function of
the two (non-negative) distances. -/
def width_score (mouthWidth eyeDistance : ℚ) : ℚ :=
  let widthRat : ℚ := if 0 < eyeDistance then mouthWidth / eyeDistance else 0
  clip ((widthRat - 9/10) * 3) 0 1

/-- The per-segment classification step of `AudioAnalyzer.analyze`,
lines 822-839 of pipeline.py.  Input: the mean smoothed RMS, spectral
centroid, zero-crossing rate and spectral bandwidth of a 1-second window.
Output: the event type together with its confidence. -/
def classifySegment (rms centroid zcr bandwidth : ℚ) : String × ℚ :=
  if rms < 1/20 then
    ("silence", 1 - rms / (1/20))
  else if bandwidth > 1/2 ∧ zcr > 2/5 then
    ("applause", min bandwidth zcr)
  else if 1/5 < zcr ∧ zcr < 3/5 ∧ centroid < 2/5 then
    ("speech", 1 - |zcr - 2/5|)
  else if centroid > 2/5 ∧ rms > 1/5 then
    ("music", centroid)
  else
    ("other", 1/2)

/-- A detected face, restricted to the fields the selection engine reads:
`bbox` (list of coordinates, `face.get('bbox', [0,0,0,0])`) and the optional
`smile_score`. -/
structure Face where
  bbox : List ℚ
  smile_score : Option ℚ
deriving DecidableEq, Repr

/-- `' '.join(t.lower() for t in tags)` (pipeline.py lines 969-970). -/
def joinTags (tags : List String) : String :=
  " ".intercalate (tags.map (fun t => t.map Char.toLower))

/-- Python's substring test `needle in hay` on strings: some tail of `hay`
has `needle` as a prefix. -/
def strIn (needle hay : String) : Bool :=
  hay.data.tails.any (fun t => needle.data.isPrefixOf t)

/-- `detail_keywords` of `classify_frame_category` (pipeline.py 973-984). -/
def detail_keywords : List String :=
  ["ring", "rings", "wedding ring", "jewelry", "diamond",
   "flower", "flowers", "bouquet", "floral",
   "cake", "wedding cake", "dessert",
   "dress", "wedding dress", "gown", "veil",
   "shoes", "heels", "shoe",
   "invitation", "stationery", "card",
   "table setting", "place setting", "centerpiece",
   "candle", "candles", "decoration",
   "tie", "bow tie", "cufflinks", "watch",
   "food", "champagne", "wine glass"]

/-- `people_keywords` of `classify_frame_category` (pipeline.py 987-995). -/
def people_keywords : List String :=
  ["person", "people", "man", "woman", "couple",
   "hand", "hands", "holding hands",
   "back", "shoulder", "shoulders",
   "silhouette", "shadow",
   "walking", "dancing", "standing",
   "bride", "groom", "bridesmaid", "groomsman",
   "guest", "guests", "crowd", "audience"]

/-- `broll_keywords` of `classify_frame_category` (pipeline.py 998-1006). -/
def broll_keywords : List String :=
  ["landscape", "outdoor", "outdoors", "nature",
   "venue", "building", "architecture", "church",
   "sky", "sunset", "sunrise", "clouds",
   "tree", "trees", "garden", "park",
   "interior", "room", "hall", "ballroom",
   "water", "lake", "ocean", "fountain",
   "sign", "entrance", "door", "window"]

/-- The face-area accumulation loop of `classify_frame_category`
(pipeline.py 1012-1023): returns `(total_face_area, valid_faces)`, summing
`(bbox[2]-bbox[0])*(bbox[3]-bbox[1])` over faces whose bbox has at least 4
entries and whose area is positive. -/
def faceAreaStats (faces : List Face) : ℚ × ℕ :=
  faces.foldl
    (fun acc face =>
      if 4 ≤ face.bbox.length then
        let w := face.bbox.getD 2 0 - face.bbox.getD 0 0
        let h := face.bbox.getD 3 0 - face.bbox.getD 1 0
        let area := w * h
        if 0 < area then (acc.1 + area, acc.2 + 1) else acc
      else acc)
    (0, 0)

/-- `classify_frame_category` (pipeline.py 950-1052).  Faces are tested
first via the average valid-face area as a percentage of the frame area;
then the keyword lists, in the order detail, people, broll; default broll.
The `for keyword in ...: if keyword in tags_str: return ...` loops are
rendered with `List.any`. -/
def classify_frame_category (faces : List Face) (tags : List String)
    (image_width : ℚ := 1920) (image_height : ℚ := 1080) : String :=
  let tags_str := joinTags tags
  let frame_area := image_width * image_height
  let stats := faceAreaStats faces
  if faces ≠ [] ∧ 0 < stats.2 ∧ 1/2 ≤ stats.1 / (stats.2 : ℚ) / frame_area * 100 then
    "people_face"
  else if detail_keywords.any (fun kw => strIn kw tags_str) then
    "detail"
  else if people_keywords.any (fun kw => strIn kw tags_str) then
    "people_roll"
  else if broll_keywords.any (fun kw => strIn kw tags_str) then
    "broll"
  else
    "broll"

/-- Spec-side rendering of the (amended) category claim: `people_face` when
the mean area of the positive-area detected faces is at least 0.5% of the
frame area; otherwise the first matching keyword set in priority order
detail, people-without-face, scenic; `broll` when nothing matches.  Stated
from the claim's words, to be compared with `classify_frame_category`. -/
def categorySpecAvg (faces : List Face) (tags : List String)
    (image_width image_height : ℚ) : String :=
  let tags_str := joinTags tags
  let stats := faceAreaStats faces
  if faces ≠ [] ∧ 0 < stats.2 ∧
      1/200 * (image_width * image_height) * (stats.2 : ℚ) ≤ stats.1 then
    "people_face"
  else if detail_keywords.any (fun kw => strIn kw tags_str) then
    "detail"
  else if people_keywords.any (fun kw => strIn kw tags_str) then
    "people_roll"
  else
    "broll"

/-- `AudioAnalyzer.get_energy_at_timestamp` (pipeline.py 881-895).  The
energy curve is a list of `(time, energy)` pairs; `np.searchsorted(times,
timestamp)` on the sorted `times` equals the number of entries with time
strictly below `timestamp`. -/
def get_energy_at_timestamp (curve : List (ℚ × ℚ)) (t : ℚ) : ℚ :=
  match curve with
  | [] => 0
  | c0 :: rest =>
    let idx := (c0 :: rest).countP (fun p => decide (p.1 < t))
    if idx = 0 then c0.2
    else if (c0 :: rest).length ≤ idx then ((c0 :: rest).getLastD c0).2
    else ((c0 :: rest).getD idx c0).2

/-- A candidate frame record, restricted to the keys the selection engine
reads.  Each field holds the default that the Python `dict.get` calls
supply when the key is absent. -/
structure Candidate where
  frame_number : ℕ
  timestamp : ℚ
  scene_index : ℤ
  sharpness_score : ℚ
  faces : List Face
  tags : List String
  cluster_labels : List (ℕ × ℤ)
  is_broll : Bool
  frame_category : String
  max_smile_score : ℚ
  is_audio_peak : Bool
  audio_type : Option String
  audio_intensity : ℚ
deriving DecidableEq, Repr

/-- One entry of a `selection_reasons` / `should_keep` reason list.  The
Python code builds formatted strings; the constructors carry the same
payloads without the formatting. -/
inductive Reason where
  | tooClose
  | newFaces (ids : List ℤ)
  | newComposition (comp : String)
  | highSmile (score : ℚ)
  | audioPeak (audioType : String)
  | audioMoment (audioType : String)
  | verySharp (s : ℚ)
  | uniqueBroll (sample : List String)
  | best (category : String)
  | score (q : ℚ)
  | sceneCoverage
deriving DecidableEq, Repr

/-- The mutable state of a `VarietySelector` instance (pipeline.py
1066-1069): `seen_faces` (a set of cluster ids), `seen_compositions`
(scene index → set of composition labels), `min_timestamp_gap`. -/
structure SelectorState where
  seen_faces : List ℤ
  seen_compositions : List (ℤ × List String)
  min_timestamp_gap : ℚ
deriving DecidableEq, Repr

/-- A freshly constructed `VarietySelector` (pipeline.py 1066-1069). -/
def SelectorState.init : SelectorState := ⟨[], [], 1⟩

/-- `VarietySelector.classify_composition` (pipeline.py 1071-1108). -/
def classify_composition (c : Candidate) : String :=
  if c.faces = [] then
    let tag_str := joinTags c.tags
    if ["landscape", "outdoor", "venue", "building", "sky"].any
        (fun w => strIn w tag_str) then "wide"
    else if ["detail", "close", "flower", "ring", "food"].any
        (fun w => strIn w tag_str) then "close"
    else "medium"
  else
    let total_face_area := c.faces.foldl
      (fun acc face =>
        if 4 ≤ face.bbox.length then
          acc + (face.bbox.getD 2 0 - face.bbox.getD 0 0) *
                (face.bbox.getD 3 0 - face.bbox.getD 1 0)
        else acc) 0
    let avg_face_area := total_face_area / (c.faces.length : ℚ)
    if 100000 < avg_face_area then "close"
    else if 30000 < avg_face_area then "medium"
    else "wide"

/-- `VarietySelector.get_face_clusters` (pipeline.py 1110-1119): the
cluster ids ≥ 0 appearing in `cluster_labels` (a Python set; here the list
of values, duplicates harmless since only membership and emptiness are
consumed). -/
def get_face_clusters (c : Candidate) : List ℤ :=
  (c.cluster_labels.map Prod.snd).filter (fun cid => 0 ≤ cid)

/-- The smile value consumed by `should_keep` (pipeline.py 1155-1158):
the `max_smile_score` key, overridden by the maximum per-face
`smile_score or 0` when the face list is non-empty. -/
def maxSmileOf (c : Candidate) : ℚ :=
  match c.faces with
  | [] => c.max_smile_score
  | f :: fs => (fs.map (fun g => g.smile_score.getD 0)).foldl max (f.smile_score.getD 0)

/-- The Jaccard overlap of two tag lists viewed as sets
(pipeline.py 1188): `len(a & b) / max(len(a | b), 1)`. -/
def tagOverlap (a b : List String) : ℚ :=
  ((a.dedup.filter (fun t => t ∈ b)).length : ℚ) /
    ((max ((a ++ b).dedup.length) 1 : ℕ) : ℚ)

/-- The reason accumulation of `VarietySelector.should_keep`
(pipeline.py 1142-1193): the seven criteria, each contributing its reason
when its condition holds, concatenated in program order. -/
def shouldKeepReasons (st : SelectorState) (c : Candidate)
    (all_selected : List Candidate) : List Reason :=
  let new_faces := (get_face_clusters c).filter (fun cid => cid ∉ st.seen_faces)
  let r1 : List Reason := if new_faces ≠ [] then [Reason.newFaces new_faces] else []
  let composition := classify_composition c
  let scene_comps :=
    ((st.seen_compositions.find? (fun p => p.1 = c.scene_index)).map Prod.snd).getD []
  let r2 : List Reason :=
    if composition ∉ scene_comps then [Reason.newComposition composition] else []
  let max_smile := maxSmileOf c
  let r3 : List Reason := if 3/5 < max_smile then [Reason.highSmile max_smile] else []
  let r4 : List Reason :=
    if c.is_audio_peak then [Reason.audioPeak (c.audio_type.getD "unknown")] else []
  let r5 : List Reason :=
    if (c.audio_type = some "applause" ∨ c.audio_type = some "music") ∧
        1/2 < c.audio_intensity then
      [Reason.audioMoment (c.audio_type.getD "unknown")]
    else []
  let r6 : List Reason :=
    if 500 < c.sharpness_score then [Reason.verySharp c.sharpness_score] else []
  let tags := c.tags.dedup
  let similar_broll := all_selected.any
    (fun s => s.is_broll && decide (1/2 < tagOverlap c.tags s.tags))
  let r7 : List Reason :=
    if c.is_broll ∧ ¬similar_broll ∧ tags ≠ [] then
      [Reason.uniqueBroll (tags.take 3)]
    else []
  r1 ++ r2 ++ r3 ++ r4 ++ r5 ++ r6 ++ r7

/-- `VarietySelector.should_keep` (pipeline.py 1121-1196). -/
def should_keep (st : SelectorState) (c : Candidate)
    (all_selected : List Candidate) : Bool × List Reason :=
  let same_scene_timestamps :=
    (all_selected.filter (fun s => s.scene_index = c.scene_index)).map
      (fun s => s.timestamp)
  if same_scene_timestamps.any
      (fun t => decide (|c.timestamp - t| < st.min_timestamp_gap)) then
    (false, [Reason.tooClose])
  else
    let reasons := shouldKeepReasons st c all_selected
    (decide (reasons ≠ []), reasons)

/-- `VarietySelector.compute_quality_score` (pipeline.py 1209-1236). -/
def compute_quality_score (c : Candidate) : ℚ :=
  let sharpness_norm := min 1 (max 0 ((c.sharpness_score - 50) / 450))
  let smile : ℚ :=
    match c.faces with
    | [] => 0
    | f :: fs => (fs.map (fun g => g.smile_score.getD 0)).foldl max (f.smile_score.getD 0)
  let audio_boost : ℚ := if c.is_audio_peak then 1/5 else 0
  let face_boost : ℚ :=
    if c.faces = [] then 0 else min (3/20) ((c.faces.length : ℚ) * (1/20))
  sharpness_norm * (2/5) + smile * (3/10) + audio_boost + face_boost

/-- Insertion-ordered grouping by a key, modelling the Python idiom
`d = {}; for a in l: d.setdefault(key(a), []).append(a)` used for both
the by-scene and the by-category dictionaries (pipeline.py 1262-1267 and
1280-1285): keys appear in first-occurrence order, each paired with the
sublist of elements carrying that key, in original order. -/
def groupByKey {α κ : Type} [DecidableEq κ] (key : α → κ) : List α → List (κ × List α)
  | [] => []
  | a :: rest =>
    (key a, a :: rest.filter (fun b => key b = key a)) ::
      groupByKey key (rest.filter (fun b => ¬ (key b = key a)))
termination_by l => l.length
decreasing_by
  simp only [List.length_cons]
  exact Nat.lt_succ_of_le (rest.length_filter_le _)

/-- Selection state threaded through one scene: the accepted candidates
(with their reasons) and `selected_timestamps`. -/
abbrev Sel : Type := List (Candidate × List Reason) × List ℚ

/-- The `too_close` test of `VarietySelector.select` (pipeline.py
1307-1310 and 1334-1339). -/
def tooCloseB (gap t : ℚ) (ts : List ℚ) : Bool :=
  ts.any (fun u => decide (|t - u| < gap))

/-- The inner candidate walk of the category pass (pipeline.py
1301-1323): the first candidate (in score order) whose timestamp is not
too close to an already-selected one, if any. -/
def tryPick (gap : ℚ) (ts : List ℚ) : List Candidate → Option Candidate
  | [] => none
  | c :: rest => if tooCloseB gap c.timestamp ts then tryPick gap ts rest else some c

/-- `category_priority` (pipeline.py 1292). -/
def categoryPriority : List String := ["people_face", "people_roll", "detail", "broll"]

/-- One iteration of the category loop of `VarietySelector.select`
(pipeline.py 1294-1323): stop when `max_per_scene` is reached, otherwise
pick at most one candidate from the category's score-ordered list. -/
def catStep (gap : ℚ) (maxPer : ℤ) (byCat : List (String × List Candidate))
    (st : Sel) (cat : String) : Sel :=
  if maxPer ≤ (st.1.length : ℤ) then st
  else
    match (byCat.find? (fun p => p.1 = cat)).map Prod.snd with
    | none => st
    | some cs =>
      match tryPick gap st.2 cs with
      | none => st
      | some c =>
        (st.1 ++ [(c, [Reason.best cat, Reason.score (compute_quality_score c)])],
         st.2 ++ [c.timestamp])

/-- The full category-diversity pass over `category_priority`. -/
def categoryPass (gap : ℚ) (maxPer : ℤ)
    (byCat : List (String × List Candidate)) : Sel :=
  categoryPriority.foldl (catStep gap maxPer byCat) ([], [])

/-- The minimum-fill pass of `VarietySelector.select` (pipeline.py
1326-1343): while fewer than `min_per_scene` are selected, add the next
score-ordered candidate that is not already selected and not too close. -/
def fillPass (gap : ℚ) (minPer : ℤ) : List Candidate → Sel → Sel
  | [], st => st
  | c :: rest, st =>
    if minPer ≤ (st.1.length : ℤ) then st
    else if c ∈ st.1.map Prod.fst then fillPass gap minPer rest st
    else if tooCloseB gap c.timestamp st.2 then fillPass gap minPer rest st
    else
      fillPass gap minPer rest
        (st.1 ++ [(c, [Reason.sceneCoverage])], st.2 ++ [c.timestamp])

/-- The quality-descending relation used to sort a scene's candidates
(pipeline.py 1277, `sort(key=..., reverse=True)`). -/
def qualityGE (a b : Candidate) : Prop :=
  compute_quality_score b ≤ compute_quality_score a

instance : DecidableRel qualityGE := fun _ _ =>
  inferInstanceAs (Decidable (_ ≤ _))

/-- The per-scene body of `VarietySelector.select` (pipeline.py
1271-1345): score and sort the scene's candidates, group them by
category, run the category pass, then the minimum-fill pass if needed. -/
def selectScene (gap : ℚ) (minPer maxPer : ℤ) (cs : List Candidate) :
    List (Candidate × List Reason) :=
  let sorted := List.insertionSort qualityGE cs
  let byCat := groupByKey Candidate.frame_category sorted
  let st := categoryPass gap maxPer byCat
  let st' := if (st.1.length : ℤ) < minPer then fillPass gap minPer sorted st else st
  st'.1

/-- `VarietySelector.select` (pipeline.py 1238-1361): group the candidates
by scene and concatenate the per-scene selections.  The selector's
`min_timestamp_gap` is the 1.0s set in `__init__`.  The returned reasons
are the `selection_reasons` the Python code writes onto each selected
candidate. -/
def VarietySelector.select (candidates : List Candidate)
    (minPer : ℤ := 1) (maxPer : ℤ := 3) : List (Candidate × List Reason) :=
  ((groupByKey Candidate.scene_index candidates).map
    (fun g => selectScene 1 minPer maxPer g.2)).flatten

/-- An extracted-frame record at the quality-gate stage (pipeline.py
1526-1531), restricted to the keys that stage reads. -/
structure FrameInfo where
  frame_number : ℕ
  timestamp : ℚ
  sharpness_score : ℚ
deriving DecidableEq, Repr

/-- The sharpness-descending relation of the fallback sort
(pipeline.py 1729-1733, `sorted(key=..., reverse=True)`). -/
def sharpGE (a b : FrameInfo) : Prop := b.sharpness_score ≤ a.sharpness_score

instance : DecidableRel sharpGE := fun _ _ =>
  inferInstanceAs (Decidable (_ ≤ _))

instance : IsTotal FrameInfo sharpGE :=
  ⟨fun a b => (le_total b.sharpness_score a.sharpness_score).imp id id⟩

instance : IsTrans FrameInfo sharpGE :=
  ⟨fun _ _ _ h h' => le_trans h' h⟩

/-- `ScreenshotPipeline.filter_by_quality` (pipeline.py 1640-1657):
keep the frames with `sharpness_score >= sharpness_threshold`. -/
def filter_by_quality (frames : List FrameInfo) (threshold : ℚ) : List FrameInfo :=
  frames.filter (fun f => threshold ≤ f.sharpness_score)

/-- The quality phase of `ScreenshotPipeline.run` (pipeline.py 1719-1737):
threshold filter, then the fallback that keeps the
`min(3, max(1, N // 5))` sharpest frames when the filter left nothing. -/
def qualityGate (frames : List FrameInfo) (threshold : ℚ) : List FrameInfo :=
  let filtered := filter_by_quality frames threshold
  if filtered = [] ∧ frames ≠ [] then
    let sorted := List.insertionSort sharpGE frames
    sorted.take (min 3 (max 1 (frames.length / 5)))
  else filtered

/-- `sorted(candidates)` on the per-scene Python set of frame numbers
(pipeline.py 1451-1471): the ascending duplicate-free list with the same
members. -/
def sortDedup (l : List ℕ) : List ℕ :=
  (List.insertionSort (fun a b => a ≤ b) l).dedup

/-- `frame_interval = max(1, int(fps * sample_interval))`
(pipeline.py 1439). -/
def frameInterval (fps sample_interval : ℚ) : ℕ :=
  max 1 (fps * sample_interval).floor.toNat

/-- The interval-sampling loop of `ScreenshotPipeline.extract_frames`
(pipeline.py 1465-1468): `current = start+offset; while current <
end-offset: add current; current += frame_interval`.  The `0 < step`
guard only rules out the non-terminating `step = 0` case, which the
caller's `max(1, ...)` already excludes. -/
def sampleLoop (cur stop step : ℕ) : List ℕ :=
  if _h : cur < stop ∧ 0 < step then cur :: sampleLoop (cur + step) stop step
  else []
termination_by stop - cur
decreasing_by omega

/-- The per-scene candidate frame-number set of
`ScreenshotPipeline.extract_frames` (pipeline.py 1441-1468), before the
set is sorted: the early, midpoint and near-end anchors, plus the
interval samples when the scene lasts more than 1.0s. -/
def sceneCandidateFrames (s e : ℕ) (fps sample_interval : ℚ) : List ℕ :=
  let len := e - s
  let offset := min 3 (len / 4)
  let base := [s + offset, (s + e) / 2, e - offset]
  let extra :=
    if 1 < (len : ℚ) / fps then
      sampleLoop (s + offset) (e - offset) (frameInterval fps sample_interval)
    else []
  base ++ extra

/-- The registration loop over `sorted(candidates)` (pipeline.py
1470-1476): append `(frame_num, scene_idx)` for each frame in range that
no earlier scene (or earlier frame of this scene) has claimed. -/
def addFrames (total idx : ℕ) (cs : List ℕ) (acc : List (ℕ × ℕ)) : List (ℕ × ℕ) :=
  cs.foldl
    (fun a f => if f < total ∧ ∀ p ∈ a, p.1 ≠ f then a ++ [(f, idx)] else a)
    acc

/-- The scene loop of `ScreenshotPipeline.extract_frames` (pipeline.py
1441-1476): skip scenes shorter than 0.3s, otherwise register the scene's
sorted candidate set. -/
def planAux (fps sample_interval : ℚ) (total : ℕ) :
    List (ℕ × ℕ) → ℕ → List (ℕ × ℕ) → List (ℕ × ℕ)
  | [], _, acc => acc
  | (s, e) :: rest, idx, acc =>
    if ((e - s : ℕ) : ℚ) / fps < 3/10 then
      planAux fps sample_interval total rest (idx + 1) acc
    else
      planAux fps sample_interval total rest (idx + 1)
        (addFrames total idx (sortDedup (sceneCandidateFrames s e fps sample_interval)) acc)

/-- The sampling plan of `ScreenshotPipeline.extract_frames` (pipeline.py
1432-1476): the `(frame_number, scene_index)` pairs, in registration
order, that the extraction step will attempt. -/
def planFrames (scenes : List (ℕ × ℕ)) (fps sample_interval : ℚ) (total : ℕ) :
    List (ℕ × ℕ) :=
  planAux fps sample_interval total scenes 0 []

/-- The invariant threaded through the per-scene selection passes of
`VarietySelector.select`: `selected_timestamps` mirrors the accepted
candidates, accepted timestamps are pairwise at least `gap` apart, and
every accepted candidate comes from `pool`. -/
def SelInvariant (gap : ℚ) (pool : List Candidate) (st : Sel) : Prop :=
  st.2 = st.1.map (fun p => p.1.timestamp) ∧
  st.2.Pairwise (fun t u => gap ≤ |t - u|) ∧
  ∀ p ∈ st.1, p.1 ∈ pool

/- ------------------------------------------------------------------ -/
/- Theorems                                                            -/
/- ------------------------------------------------------------------ -/

/-- C5: every 1-second audio segment is classified by the fixed decision
order silence (mean RMS < 0.05), applause (bandwidth > 0.5 and ZCR >
0.4), speech (ZCR strictly between 0.2 and 0.6 and centroid < 0.4),
music (centroid > 0.4 and RMS > 0.2), other; and the three example
windows classify as silence, music and speech respectively. -/
theorem audio_segment_decision_order :
    (∀ r c z b : ℚ, r < 1/20 → (classifySegment r c z b).1 = "silence") ∧
    (∀ r c z b : ℚ, ¬ r < 1/20 → b > 1/2 → z > 2/5 →
      (classifySegment r c z b).1 = "applause") ∧
    (∀ r c z b : ℚ, ¬ r < 1/20 → ¬ (b > 1/2 ∧ z > 2/5) →
      1/5 < z → z < 3/5 → c < 2/5 → (classifySegment r c z b).1 = "speech") ∧
    (∀ r c z b : ℚ, ¬ r < 1/20 → ¬ (b > 1/2 ∧ z > 2/5) →
      ¬ (1/5 < z ∧ z < 3/5 ∧ c < 2/5) → c > 2/5 → r > 1/5 →
      (classifySegment r c z b).1 = "music") ∧
    (∀ r c z b : ℚ, ¬ r < 1/20 → ¬ (b > 1/2 ∧ z > 2/5) →
      ¬ (1/5 < z ∧ z < 3/5 ∧ c < 2/5) → ¬ (c > 2/5 ∧ r > 1/5) →
      (classifySegment r c z b).1 = "other") ∧
    (∀ c z b : ℚ, (classifySegment (1/100) c z b).1 = "silence") ∧
    (∀ b : ℚ, (classifySegment (3/10) (1/2) (1/10) b).1 = "music") ∧
    (∀ b : ℚ, (classifySegment (3/10) (1/5) (3/10) b).1 = "speech") := by
  refine ⟨?_, ?_, ?_, ?_, ?_, ?_, ?_, ?_⟩
  · intro r c z b h1
    simp only [classifySegment, if_pos h1]
  · intro r c z b h1 h2 h3
    simp only [classifySegment, if_neg h1, if_pos (And.intro h2 h3)]
  · intro r c z b h1 h2 h3 h4 h5
    simp only [classifySegment, if_neg h1, if_neg h2,
      if_pos (And.intro h3 (And.intro h4 h5))]
  · intro r c z b h1 h2 h3 h4 h5
    simp only [classifySegment, if_neg h1, if_neg h2, if_neg h3,
      if_pos (And.intro h4 h5)]
  · intro r c z b h1 h2 h3 h4
    simp only [classifySegment, if_neg h1, if_neg h2, if_neg h3, if_neg h4]
  · intro c z b
    have h1 : (1:ℚ)/100 < 1/20 := by norm_num
    simp only [classifySegment, if_pos h1]
  · intro b
    have h1 : ¬ (3:ℚ)/10 < 1/20 := by norm_num
    have h2 : ¬ (b > 1/2 ∧ (1:ℚ)/10 > 2/5) := by
      rintro ⟨-, hz⟩; norm_num at hz
    have h3 : ¬ ((1:ℚ)/5 < 1/10 ∧ (1:ℚ)/10 < 3/5 ∧ (1:ℚ)/2 < 2/5) := by
      rintro ⟨hz, -⟩; norm_num at hz
    have h4 : (1:ℚ)/2 > 2/5 ∧ (3:ℚ)/10 > 1/5 := by norm_num
    simp only [classifySegment, if_neg h1, if_neg h2, if_neg h3, if_pos h4]
  · intro b
    have h1 : ¬ (3:ℚ)/10 < 1/20 := by norm_num
    have h2 : ¬ (b > 1/2 ∧ (3:ℚ)/10 > 2/5) := by
      rintro ⟨-, hz⟩; norm_num at hz
    have h3 : (1:ℚ)/5 < 3/10 ∧ (3:ℚ)/10 < 3/5 ∧ (1:ℚ)/5 < 2/5 := by norm_num
    simp only [classifySegment, if_neg h1, if_neg h2, if_pos h3]

/-- Witness for C5: the applause branch at a concrete window. -/
theorem audio_segment_decision_order_witness :
    ¬ ((3:ℚ)/10 < 1/20) ∧ ((3:ℚ) > 1/2) ∧ ((1:ℚ)/2 > 2/5) ∧
      (classifySegment (3/10) 0 (1/2) 3).1 = "applause" :=
  ⟨by norm_num, by norm_num, by norm_num,
    audio_segment_decision_order.2.1 (3/10) 0 (1/2) 3
      (by norm_num) (by norm_num) (by norm_num)⟩

/-- C8: in the 106-point smile estimator, for fixed positive eye
distance, a larger mouth-corner distance never yields a smaller
`width_score`. -/
theorem width_score_monotone (e w1 w2 : ℚ) (he : 0 < e) (hw : w1 ≤ w2) :
    width_score w1 e ≤ width_score w2 e := by
  simp only [width_score, if_pos he, clip]
  have hdiv : w1 / e ≤ w2 / e := (div_le_div_iff_of_pos_right he).mpr hw
  have hmul : (w1 / e - 9/10) * 3 ≤ (w2 / e - 9/10) * 3 := by nlinarith
  exact min_le_min le_rfl (max_le_max le_rfl hmul)

/-- Witness for C8. -/
theorem width_score_monotone_witness :
    (0:ℚ) < 1 ∧ (1:ℚ) ≤ 2 ∧ width_score 1 1 ≤ width_score 2 1 :=
  ⟨by norm_num, by norm_num, width_score_monotone 1 1 2 (by norm_num) (by norm_num)⟩

/-- On a time-sorted curve, the searchsorted count equals the position of
the first entry whose time is ≥ `t`. -/
theorem countP_lt_eq_first_ge (t : ℚ) :
    ∀ (l : List (ℚ × ℚ)) (j : ℕ),
      l.Pairwise (fun p q => p.1 ≤ q.1) → j < l.length →
      t ≤ (l.getD j (0, 0)).1 → (∀ i, i < j → (l.getD i (0, 0)).1 < t) →
      l.countP (fun p => decide (p.1 < t)) = j := by
  intro l
  induction l with
  | nil => intro j _ hj _ _; simp at hj
  | cons p rest ih =>
    intro j hsort hj hge hlt
    cases j with
    | zero =>
      have hp : ¬ p.1 < t := not_lt.mpr (by simpa using hge)
      have hrest : rest.countP (fun q => decide (q.1 < t)) = 0 := by
        apply List.countP_eq_zero.mpr
        intro q hq
        have : p.1 ≤ q.1 := (List.pairwise_cons.mp hsort).1 q hq
        simp only [decide_eq_true_eq]
        exact not_lt.mpr (le_trans (by simpa using hge) this)
      rw [List.countP_cons_of_neg _ rest (by simpa using hp), hrest]
    | succ k =>
      have hp : p.1 < t := by
        have := hlt 0 (Nat.succ_pos k)
        simpa using this
      have hrec := ih k (List.pairwise_cons.mp hsort).2
        (by simpa using Nat.lt_of_succ_lt_succ hj)
        (by simpa using hge)
        (fun i hi => by simpa using hlt (i + 1) (Nat.succ_lt_succ hi))
      rw [List.countP_cons_of_pos _ rest (by simpa using hp), hrec]

/-- C9 (amended): on a non-empty time-sorted energy curve, the lookup
returns the energy stored at the first index whose time is ≥ `t` — not at
the nearest index — falling back to the last entry when every time is
below `t`; the empty curve yields 0. -/
theorem energy_lookup_characterization :
    (∀ t : ℚ, get_energy_at_timestamp [] t = 0) ∧
    (∀ (curve : List (ℚ × ℚ)) (t : ℚ), curve ≠ [] →
      curve.Pairwise (fun p q => p.1 ≤ q.1) →
      (∀ p ∈ curve, p.1 < t) →
      get_energy_at_timestamp curve t = (curve.getLastD (0, 0)).2) ∧
    (∀ (curve : List (ℚ × ℚ)) (t : ℚ) (j : ℕ),
      curve.Pairwise (fun p q => p.1 ≤ q.1) →
      j < curve.length → t ≤ (curve.getD j (0, 0)).1 →
      (∀ i, i < j → (curve.getD i (0, 0)).1 < t) →
      get_energy_at_timestamp curve t = (curve.getD j (0, 0)).2) := by
  refine ⟨fun t => rfl, ?_, ?_⟩
  · intro curve t hne _ hall
    match curve with
    | [] => exact absurd rfl hne
    | c0 :: rest =>
      have hcount : (c0 :: rest).countP (fun p => decide (p.1 < t)) =
          (c0 :: rest).length := by
        apply List.countP_eq_length.mpr
        intro p hp
        simpa using hall p hp
      have hne0 : (c0 :: rest).length ≠ 0 := by simp
      simp only [get_energy_at_timestamp, hcount]
      rw [if_neg hne0, if_pos (le_refl _), List.getLastD_cons, List.getLastD_cons]
  · intro curve t j hsort hj hge hlt
    have hcount := countP_lt_eq_first_ge t curve j hsort hj hge hlt
    match curve with
    | [] => simp at hj
    | c0 :: rest =>
      cases j with
      | zero =>
        simp only [get_energy_at_timestamp, hcount, if_pos rfl]
        simp
      | succ k =>
        have h1 : ¬ (k + 1 = 0) := by omega
        have h2 : ¬ ((c0 :: rest).length ≤ k + 1) := by omega
        simp only [get_energy_at_timestamp, hcount, if_neg h1, if_neg h2]
        rw [List.getD_eq_getElem _ _ hj, List.getD_eq_getElem _ _ hj]

/-- Witness for C9 (amended): on the curve `[(0,5),(10,7)]` with `t = 7`,
the first index with time ≥ 7 is index 1, and the lookup returns 7. -/
theorem energy_lookup_characterization_witness :
    ([((0:ℚ),(5:ℚ)), (10,7)]).Pairwise (fun p q => p.1 ≤ q.1) ∧
      (1 < [((0:ℚ),(5:ℚ)), (10,7)].length) ∧
      ((7:ℚ) ≤ ([((0:ℚ),(5:ℚ)), (10,7)].getD 1 (0,0)).1) ∧
      get_energy_at_timestamp [((0:ℚ),(5:ℚ)), (10,7)] 7 =
        ([((0:ℚ),(5:ℚ)), (10,7)].getD 1 (0,0)).2 :=
  ⟨by norm_num, by norm_num,
   by norm_num,
   energy_lookup_characterization.2.2 [((0:ℚ),(5:ℚ)), (10,7)] 7 1
     (by norm_num) (by norm_num) (by norm_num)
     (fun i hi => by interval_cases i <;> norm_num)⟩

/-- Counterexample for C9 as stated: at `t = 1` on the curve
`[(0,5),(10,7)]` the nearest index is 0 (|1-0| < |10-1|) and holds energy
5, yet the lookup returns 7 (the entry at the searchsorted index). -/
theorem energy_lookup_not_nearest :
    get_energy_at_timestamp [((0:ℚ),(5:ℚ)), (10,7)] 1 = 7 ∧
      |(1:ℚ) - 0| < |(10:ℚ) - 1| ∧ (7:ℚ) ≠ 5 := by
  refine ⟨by decide, by norm_num, by norm_num⟩

/-- C4 (amended): the category tests apply in priority order — the face
test first (using the mean area of the positive-area faces, at least 0.5%
of the frame area), then detail keywords, then people-without-face
keywords, then scenic keywords, defaulting to `broll` — i.e. the code
agrees everywhere with the spec-side `categorySpecAvg`. -/
theorem classify_frame_category_eq_spec (faces : List Face) (tags : List String)
    (w h : ℚ) (hwh : 0 < w * h) :
    classify_frame_category faces tags w h = categorySpecAvg faces tags w h := by
  simp only [classify_frame_category, categorySpecAvg]
  have hcond : (faces ≠ [] ∧ 0 < (faceAreaStats faces).2 ∧
      1/2 ≤ (faceAreaStats faces).1 / ((faceAreaStats faces).2 : ℚ) / (w * h) * 100) ↔
      (faces ≠ [] ∧ 0 < (faceAreaStats faces).2 ∧
      1/200 * (w * h) * ((faceAreaStats faces).2 : ℚ) ≤ (faceAreaStats faces).1) := by
    constructor
    · rintro ⟨h1, h2, h3⟩
      refine ⟨h1, h2, ?_⟩
      have hc : (0:ℚ) < ((faceAreaStats faces).2 : ℚ) := by exact_mod_cast h2
      rw [div_div, div_mul_eq_mul_div, le_div_iff (by positivity)] at h3
      nlinarith
    · rintro ⟨h1, h2, h3⟩
      refine ⟨h1, h2, ?_⟩
      have hc : (0:ℚ) < ((faceAreaStats faces).2 : ℚ) := by exact_mod_cast h2
      rw [div_div, div_mul_eq_mul_div, le_div_iff (by positivity)]
      nlinarith
  by_cases hface : faces ≠ [] ∧ 0 < (faceAreaStats faces).2 ∧
      1/2 ≤ (faceAreaStats faces).1 / ((faceAreaStats faces).2 : ℚ) / (w * h) * 100
  · rw [if_pos hface, if_pos (hcond.mp hface)]
  · rw [if_neg hface, if_neg (fun hc => hface (hcond.mpr hc))]
    split_ifs <;> rfl

/-- Witness for C4 (amended), at a single large face on a 1920×1080
frame. -/
theorem classify_frame_category_eq_spec_witness :
    (0:ℚ) < 1920 * 1080 ∧
      classify_frame_category [⟨[0, 0, 144, 72], none⟩] [] 1920 1080 =
        categorySpecAvg [⟨[0, 0, 144, 72], none⟩] [] 1920 1080 :=
  ⟨by norm_num,
   classify_frame_category_eq_spec [⟨[0, 0, 144, 72], none⟩] [] 1920 1080 (by norm_num)⟩

/-- Counterexample for C4 as stated: on a 1920×1080 frame, the first face
(144×72 px) occupies exactly 0.5% of the frame area, yet because the
*average* over both faces is below 0.5%, the code returns `broll`, not
`people_face`. -/
theorem classify_frame_category_single_face_counterexample :
    (1/200 : ℚ) * (1920 * 1080) ≤ (144 - 0) * (72 - 0) ∧
      classify_frame_category [⟨[0, 0, 144, 72], none⟩, ⟨[0, 0, 2, 2], none⟩]
        [] 1920 1080 = "broll" ∧
      ("broll" : String) ≠ "people_face" := by
  refine ⟨by norm_num, ?_, by decide⟩
  have hstats : faceAreaStats [⟨[0, 0, 144, 72], none⟩, ⟨[0, 0, 2, 2], none⟩] =
      (10372, 2) := by norm_num [faceAreaStats]
  have hd : detail_keywords.any (fun kw => strIn kw (joinTags [])) = false := by decide
  have hp : people_keywords.any (fun kw => strIn kw (joinTags [])) = false := by decide
  have hb : broll_keywords.any (fun kw => strIn kw (joinTags [])) = false := by decide
  simp only [classify_frame_category, hstats, hd, hp, hb, Bool.false_eq_true,
    if_false]
  rw [if_neg]
  rintro ⟨-, -, h3⟩
  norm_num at h3

/-- C3: when the sharpness filter leaves nothing but at least one frame
was extracted, the quality gate keeps exactly `min(3, max(1, ⌊N/5⌋))`
frames, which are the sharpest ones in descending sharpness order; and
whenever at least one frame was extracted, the gate's output is
non-empty. -/
theorem quality_gate_fallback :
    (∀ (frames : List FrameInfo) (threshold : ℚ),
      filter_by_quality frames threshold = [] → frames ≠ [] →
      (qualityGate frames threshold).length = min 3 (max 1 (frames.length / 5)) ∧
      (qualityGate frames threshold).Pairwise sharpGE ∧
      ∃ rest, (qualityGate frames threshold ++ rest).Perm frames ∧
        ∀ a ∈ qualityGate frames threshold, ∀ b ∈ rest,
          b.sharpness_score ≤ a.sharpness_score) ∧
    (∀ (frames : List FrameInfo) (threshold : ℚ),
      frames ≠ [] → qualityGate frames threshold ≠ []) := by
  constructor
  · intro frames threshold hfail hne
    have hgate : qualityGate frames threshold =
        (List.insertionSort sharpGE frames).take
          (min 3 (max 1 (frames.length / 5))) := by
      simp only [qualityGate, if_pos (And.intro hfail hne)]
    have hlen : (List.insertionSort sharpGE frames).length = frames.length :=
      List.length_insertionSort sharpGE frames
    have hk : min 3 (max 1 (frames.length / 5)) ≤ frames.length := by
      have h1 : 1 ≤ frames.length := by
        cases frames with
        | nil => exact absurd rfl hne
        | cons a l => simp
      have h5 : frames.length / 5 ≤ frames.length := Nat.div_le_self _ _
      omega
    have hsorted : (List.insertionSort sharpGE frames).Pairwise sharpGE :=
      List.sorted_insertionSort sharpGE frames
    refine ⟨?_, ?_, ?_⟩
    · rw [hgate, List.length_take, hlen]
      omega
    · rw [hgate]
      exact hsorted.sublist (List.take_sublist _ _)
    · refine ⟨(List.insertionSort sharpGE frames).drop
        (min 3 (max 1 (frames.length / 5))), ?_, ?_⟩
      · rw [hgate, List.take_append_drop]
        exact List.perm_insertionSort sharpGE frames
      · intro a ha b hb
        rw [hgate] at ha
        have hsplit : List.Pairwise sharpGE
            ((List.insertionSort sharpGE frames).take
              (min 3 (max 1 (frames.length / 5))) ++
             (List.insertionSort sharpGE frames).drop
              (min 3 (max 1 (frames.length / 5)))) := by
          rw [List.take_append_drop]
          exact hsorted
        exact (List.pairwise_append.mp hsplit).2.2 a ha b hb
  · intro frames threshold hne
    by_cases hfail : filter_by_quality frames threshold = []
    · have hgate : qualityGate frames threshold =
          (List.insertionSort sharpGE frames).take
            (min 3 (max 1 (frames.length / 5))) := by
        simp only [qualityGate, if_pos (And.intro hfail hne)]
      rw [hgate]
      intro hcon
      have h1 : 1 ≤ frames.length := by
        cases frames with
        | nil => exact absurd rfl hne
        | cons a l => simp
      have := congrArg List.length hcon
      rw [List.length_take, List.length_insertionSort] at this
      simp only [List.length_nil] at this
      omega
    · have : qualityGate frames threshold = filter_by_quality frames threshold := by
        simp only [qualityGate]
        rw [if_neg]
        intro hc
        exact hfail hc.1
      rw [this]
      exact hfail

/-- Witness for C3 at a single soft frame below the threshold. -/
theorem quality_gate_fallback_witness :
    filter_by_quality [⟨0, 0, 10⟩] 50 = [] ∧ ([⟨0, 0, 10⟩] : List FrameInfo) ≠ [] ∧
      (qualityGate [⟨0, 0, 10⟩] 50).length = min 3 (max 1 (1 / 5)) ∧
      qualityGate [⟨0, 0, 10⟩] 50 ≠ [] :=
  ⟨by decide, by decide,
   (quality_gate_fallback.1 [⟨0, 0, 10⟩] 50 (by decide) (by decide)).1,
   quality_gate_fallback.2 [⟨0, 0, 10⟩] 50 (by decide)⟩

/-- `tooCloseB` is false exactly when the timestamp is at least `gap`
away from every already-selected timestamp. -/
theorem tooCloseB_eq_false_iff (gap t : ℚ) (ts : List ℚ) :
    tooCloseB gap t ts = false ↔ ∀ u ∈ ts, gap ≤ |t - u| := by
  simp [tooCloseB, not_lt]

/-- A candidate returned by `tryPick` comes from the walked list. -/
theorem tryPick_mem (gap : ℚ) (ts : List ℚ) :
    ∀ (cs : List Candidate) (c : Candidate), tryPick gap ts cs = some c → c ∈ cs := by
  intro cs
  induction cs with
  | nil => intro c h; simp [tryPick] at h
  | cons a rest ih =>
    intro c h
    simp only [tryPick] at h
    by_cases hb : tooCloseB gap a.timestamp ts = true
    · rw [if_pos hb] at h
      exact List.mem_cons_of_mem _ (ih c h)
    · rw [if_neg hb] at h
      cases h
      exact List.mem_cons_self _ _

/-- A candidate returned by `tryPick` keeps `gap` distance to every
already-selected timestamp. -/
theorem tryPick_gap (gap : ℚ) (ts : List ℚ) :
    ∀ (cs : List Candidate) (c : Candidate), tryPick gap ts cs = some c →
      ∀ u ∈ ts, gap ≤ |c.timestamp - u| := by
  intro cs
  induction cs with
  | nil => intro c h; simp [tryPick] at h
  | cons a rest ih =>
    intro c h
    simp only [tryPick] at h
    by_cases hb : tooCloseB gap a.timestamp ts = true
    · rw [if_pos hb] at h
      exact ih c h
    · rw [if_neg hb] at h
      cases h
      exact (tooCloseB_eq_false_iff gap a.timestamp ts).mp
        (Bool.not_eq_true _ ▸ hb)

/-- Structure of `groupByKey`: every group is non-empty and consists of
elements of the original list carrying the group's key. -/
theorem groupByKey_spec_aux {α κ : Type} [DecidableEq κ] (key : α → κ) :
    ∀ (n : ℕ) (l : List α), l.length ≤ n → ∀ (k : κ) (g : List α),
      (k, g) ∈ groupByKey key l → g ≠ [] ∧ ∀ c ∈ g, c ∈ l ∧ key c = k := by
  intro n
  induction n with
  | zero =>
    intro l hl k g h
    have hnil : l = [] := List.length_eq_zero.mp (Nat.le_zero.mp hl)
    subst hnil
    simp [groupByKey] at h
  | succ n ih =>
    intro l hl k g h
    match l with
    | [] => simp [groupByKey] at h
    | a :: rest =>
      simp only [groupByKey] at h
      rcases List.mem_cons.mp h with heq | htail
      · rw [Prod.mk.injEq] at heq
        obtain ⟨h1, h2⟩ := heq
        subst h1
        subst h2
        refine ⟨by simp, ?_⟩
        intro c hc
        rcases List.mem_cons.mp hc with rfl | hc
        · exact ⟨List.mem_cons_self _ _, rfl⟩
        · refine ⟨List.mem_cons_of_mem _ (List.mem_of_mem_filter hc), ?_⟩
          have h3 := List.of_mem_filter hc
          simpa using h3
      · have hlen : (rest.filter (fun b => ¬ (key b = key a))).length ≤ n := by
          have h4 := rest.length_filter_le (fun b => decide (¬ (key b = key a)))
          simp only [List.length_cons] at hl
          omega
        obtain ⟨hne, hmem⟩ := ih _ hlen k g htail
        refine ⟨hne, fun c hc => ?_⟩
        obtain ⟨hcl, hck⟩ := hmem c hc
        exact ⟨List.mem_cons_of_mem _ (List.mem_of_mem_filter hcl), hck⟩

/-- `groupByKey_spec_aux` at the natural fuel. -/
theorem groupByKey_spec {α κ : Type} [DecidableEq κ] (key : α → κ)
    (l : List α) (k : κ) (g : List α) (h : (k, g) ∈ groupByKey key l) :
    g ≠ [] ∧ ∀ c ∈ g, c ∈ l ∧ key c = k :=
  groupByKey_spec_aux key l.length l le_rfl k g h

/-- The groups of `groupByKey` carry pairwise distinct keys. -/
theorem groupByKey_keys_pairwise_aux {α κ : Type} [DecidableEq κ] (key : α → κ) :
    ∀ (n : ℕ) (l : List α), l.length ≤ n →
      (groupByKey key l).Pairwise (fun p q => p.1 ≠ q.1) := by
  intro n
  induction n with
  | zero =>
    intro l hl
    have hnil : l = [] := List.length_eq_zero.mp (Nat.le_zero.mp hl)
    subst hnil
    simp [groupByKey]
  | succ n ih =>
    intro l hl
    match l with
    | [] => simp [groupByKey]
    | a :: rest =>
      simp only [groupByKey]
      have hlen : (rest.filter (fun b => ¬ (key b = key a))).length ≤ n := by
        have h4 := rest.length_filter_le (fun b => decide (¬ (key b = key a)))
        simp only [List.length_cons] at hl
        omega
      refine List.Pairwise.cons ?_ (ih _ hlen)
      intro q hq
      obtain ⟨hne, hmem⟩ := groupByKey_spec key _ q.1 q.2 (by rwa [Prod.mk.eta])
      obtain ⟨c, hc⟩ := List.exists_mem_of_ne_nil q.2 hne
      obtain ⟨hcl, hck⟩ := hmem c hc
      have h5 : ¬ (key c = key a) := by simpa using List.of_mem_filter hcl
      intro h6
      exact h5 (hck.trans h6.symm)

/-- The groups of `groupByKey` carry pairwise distinct keys. -/
theorem groupByKey_keys_pairwise {α κ : Type} [DecidableEq κ] (key : α → κ)
    (l : List α) : (groupByKey key l).Pairwise (fun p q => p.1 ≠ q.1) :=
  groupByKey_keys_pairwise_aux key l.length l le_rfl

/-- `catStep` when the scene is already full. -/
theorem catStep_eq_stop (gap : ℚ) (maxPer : ℤ) (byCat : List (String × List Candidate))
    (st : Sel) (cat : String) (h1 : maxPer ≤ (st.1.length : ℤ)) :
    catStep gap maxPer byCat st cat = st := by
  unfold catStep
  rw [if_pos h1]

/-- `catStep` when the category is absent. -/
theorem catStep_eq_nofind (gap : ℚ) (maxPer : ℤ) (byCat : List (String × List Candidate))
    (st : Sel) (cat : String) (h1 : ¬ maxPer ≤ (st.1.length : ℤ))
    (hfind : (byCat.find? (fun p => decide (p.1 = cat))).map Prod.snd = none) :
    catStep gap maxPer byCat st cat = st := by
  unfold catStep
  rw [if_neg h1, hfind]

/-- `catStep` when every candidate of the category is too close. -/
theorem catStep_eq_nopick (gap : ℚ) (maxPer : ℤ) (byCat : List (String × List Candidate))
    (st : Sel) (cat : String) (cs : List Candidate)
    (h1 : ¬ maxPer ≤ (st.1.length : ℤ))
    (hfind : (byCat.find? (fun p => decide (p.1 = cat))).map Prod.snd = some cs)
    (hpick : tryPick gap st.2 cs = none) :
    catStep gap maxPer byCat st cat = st := by
  unfold catStep
  rw [if_neg h1, hfind]
  show (match tryPick gap st.2 cs with
        | none => st
        | some c =>
          (st.1 ++ [(c, [Reason.best cat, Reason.score (compute_quality_score c)])],
           st.2 ++ [c.timestamp])) = st
  rw [hpick]

/-- `catStep` when it accepts a candidate. -/
theorem catStep_eq_pick (gap : ℚ) (maxPer : ℤ) (byCat : List (String × List Candidate))
    (st : Sel) (cat : String) (cs : List Candidate) (c : Candidate)
    (h1 : ¬ maxPer ≤ (st.1.length : ℤ))
    (hfind : (byCat.find? (fun p => decide (p.1 = cat))).map Prod.snd = some cs)
    (hpick : tryPick gap st.2 cs = some c) :
    catStep gap maxPer byCat st cat =
      (st.1 ++ [(c, [Reason.best cat, Reason.score (compute_quality_score c)])],
       st.2 ++ [c.timestamp]) := by
  unfold catStep
  rw [if_neg h1, hfind]
  show (match tryPick gap st.2 cs with
        | none => st
        | some c =>
          (st.1 ++ [(c, [Reason.best cat, Reason.score (compute_quality_score c)])],
           st.2 ++ [c.timestamp])) =
      (st.1 ++ [(c, [Reason.best cat, Reason.score (compute_quality_score c)])],
       st.2 ++ [c.timestamp])
  rw [hpick]

/-- One category step preserves the selection invariant. -/
theorem catStep_inv (gap : ℚ) (maxPer : ℤ) (byCat : List (String × List Candidate))
    (pool : List Candidate) (st : Sel) (cat : String)
    (hby : ∀ pr ∈ byCat, ∀ c ∈ pr.2, c ∈ pool)
    (h : SelInvariant gap pool st) :
    SelInvariant gap pool (catStep gap maxPer byCat st cat) := by
  obtain ⟨hsync, hgap, hmem⟩ := h
  by_cases h1 : maxPer ≤ (st.1.length : ℤ)
  · rw [catStep_eq_stop gap maxPer byCat st cat h1]
    exact ⟨hsync, hgap, hmem⟩
  · cases hfind : (byCat.find? (fun p => decide (p.1 = cat))).map Prod.snd with
    | none =>
      rw [catStep_eq_nofind gap maxPer byCat st cat h1 hfind]
      exact ⟨hsync, hgap, hmem⟩
    | some cs =>
      cases hpick : tryPick gap st.2 cs with
      | none =>
        rw [catStep_eq_nopick gap maxPer byCat st cat cs h1 hfind hpick]
        exact ⟨hsync, hgap, hmem⟩
      | some c =>
        rw [catStep_eq_pick gap maxPer byCat st cat cs c h1 hfind hpick]
        refine ⟨by simp [hsync], ?_, ?_⟩
        · rw [List.pairwise_append]
          refine ⟨hgap, List.pairwise_singleton _ _, ?_⟩
          intro u hu t' ht'
          rw [List.mem_singleton] at ht'
          subst ht'
          have h2 := tryPick_gap gap st.2 cs c hpick u hu
          rwa [abs_sub_comm]
        · intro p hp
          rcases List.mem_append.mp hp with hp | hp
          · exact hmem p hp
          · rw [List.mem_singleton] at hp
            subst hp
            obtain ⟨pr, hpr, hpr2⟩ : ∃ pr, pr ∈ byCat ∧ pr.2 = cs := by
              cases hf : byCat.find? (fun p => decide (p.1 = cat)) with
              | none => rw [hf] at hfind; simp at hfind
              | some pr =>
                rw [hf] at hfind
                simp only [Option.map_some'] at hfind
                exact ⟨pr, List.mem_of_find?_eq_some hf, Option.some.inj hfind⟩
            show c ∈ pool
            refine hby pr hpr c ?_
            rw [hpr2]
            exact tryPick_mem gap st.2 cs c hpick

/-- One category step grows the selection by at most one, and only below
`max_per_scene`. -/
theorem catStep_length (gap : ℚ) (maxPer : ℤ) (byCat : List (String × List Candidate))
    (st : Sel) (cat : String) :
    ((catStep gap maxPer byCat st cat).1.length : ℤ) ≤ max (st.1.length : ℤ) maxPer := by
  by_cases h1 : maxPer ≤ (st.1.length : ℤ)
  · rw [catStep_eq_stop gap maxPer byCat st cat h1]
    omega
  · cases hfind : (byCat.find? (fun p => decide (p.1 = cat))).map Prod.snd with
    | none =>
      rw [catStep_eq_nofind gap maxPer byCat st cat h1 hfind]
      omega
    | some cs =>
      cases hpick : tryPick gap st.2 cs with
      | none =>
        rw [catStep_eq_nopick gap maxPer byCat st cat cs h1 hfind hpick]
        omega
      | some c =>
        rw [catStep_eq_pick gap maxPer byCat st cat cs c h1 hfind hpick]
        simp only [List.length_append, List.length_singleton]
        push_cast
        omega

/-- The category-pass fold preserves the selection invariant. -/
theorem foldl_catStep_inv (gap : ℚ) (maxPer : ℤ)
    (byCat : List (String × List Candidate)) (pool : List Candidate)
    (hby : ∀ pr ∈ byCat, ∀ c ∈ pr.2, c ∈ pool) :
    ∀ (cats : List String) (st : Sel), SelInvariant gap pool st →
      SelInvariant gap pool (cats.foldl (catStep gap maxPer byCat) st) := by
  intro cats
  induction cats with
  | nil => intro st h; exact h
  | cons cat cats ih =>
    intro st h
    rw [List.foldl_cons]
    exact ih _ (catStep_inv gap maxPer byCat pool st cat hby h)

/-- The category-pass fold keeps the selection length below
`max(initial, max_per_scene)`. -/
theorem foldl_catStep_length (gap : ℚ) (maxPer : ℤ)
    (byCat : List (String × List Candidate)) :
    ∀ (cats : List String) (st : Sel),
      ((cats.foldl (catStep gap maxPer byCat) st).1.length : ℤ) ≤
        max (st.1.length : ℤ) maxPer := by
  intro cats
  induction cats with
  | nil => intro st; simp
  | cons cat cats ih =>
    intro st
    rw [List.foldl_cons]
    have h1 := ih (catStep gap maxPer byCat st cat)
    have h2 := catStep_length gap maxPer byCat st cat
    omega

/-- The category pass satisfies the selection invariant. -/
theorem categoryPass_inv (gap : ℚ) (maxPer : ℤ)
    (byCat : List (String × List Candidate)) (pool : List Candidate)
    (hby : ∀ pr ∈ byCat, ∀ c ∈ pr.2, c ∈ pool) :
    SelInvariant gap pool (categoryPass gap maxPer byCat) :=
  foldl_catStep_inv gap maxPer byCat pool hby categoryPriority ([], [])
    ⟨rfl, List.Pairwise.nil, by simp⟩

/-- The category pass selects at most `max(0, max_per_scene)`. -/
theorem categoryPass_length (gap : ℚ) (maxPer : ℤ)
    (byCat : List (String × List Candidate)) :
    ((categoryPass gap maxPer byCat).1.length : ℤ) ≤ max 0 maxPer := by
  have h := foldl_catStep_length gap maxPer byCat categoryPriority ([], [])
  simpa using h

/-- The minimum-fill pass preserves the selection invariant. -/
theorem fillPass_inv (gap : ℚ) (minPer : ℤ) (pool : List Candidate) :
    ∀ (l : List Candidate), (∀ c ∈ l, c ∈ pool) → ∀ (st : Sel),
      SelInvariant gap pool st → SelInvariant gap pool (fillPass gap minPer l st) := by
  intro l
  induction l with
  | nil => intro _ st h; exact h
  | cons c rest ih =>
    intro hl st h
    simp only [fillPass]
    by_cases h1 : minPer ≤ (st.1.length : ℤ)
    · rw [if_pos h1]; exact h
    · rw [if_neg h1]
      by_cases h2 : c ∈ st.1.map Prod.fst
      · rw [if_pos h2]
        exact ih (fun x hx => hl x (List.mem_cons_of_mem _ hx)) st h
      · rw [if_neg h2]
        by_cases h3 : tooCloseB gap c.timestamp st.2 = true
        · rw [if_pos h3]
          exact ih (fun x hx => hl x (List.mem_cons_of_mem _ hx)) st h
        · rw [if_neg h3]
          apply ih (fun x hx => hl x (List.mem_cons_of_mem _ hx))
          obtain ⟨hsync, hgap, hmem⟩ := h
          refine ⟨by simp [hsync], ?_, ?_⟩
          · rw [List.pairwise_append]
            refine ⟨hgap, List.pairwise_singleton _ _, ?_⟩
            intro u hu t' ht'
            rw [List.mem_singleton] at ht'
            subst ht'
            have h4 := (tooCloseB_eq_false_iff gap c.timestamp st.2).mp
              (Bool.not_eq_true _ ▸ h3) u hu
            rwa [abs_sub_comm]
          · intro p hp
            rcases List.mem_append.mp hp with hp | hp
            · exact hmem p hp
            · rw [List.mem_singleton] at hp
              subst hp
              exact hl c (List.mem_cons_self _ _)

/-- The minimum-fill pass keeps the selection length below
`max(initial, min_per_scene)`. -/
theorem fillPass_length (gap : ℚ) (minPer : ℤ) :
    ∀ (l : List Candidate) (st : Sel),
      ((fillPass gap minPer l st).1.length : ℤ) ≤ max (st.1.length : ℤ) minPer := by
  intro l
  induction l with
  | nil => intro st; simp [fillPass]
  | cons c rest ih =>
    intro st
    simp only [fillPass]
    by_cases h1 : minPer ≤ (st.1.length : ℤ)
    · rw [if_pos h1]; omega
    · rw [if_neg h1]
      by_cases h2 : c ∈ st.1.map Prod.fst
      · rw [if_pos h2]
        have := ih st
        omega
      · rw [if_neg h2]
        by_cases h3 : tooCloseB gap c.timestamp st.2 = true
        · rw [if_pos h3]
          have := ih st
          omega
        · rw [if_neg h3]
          have h4 := ih (st.1 ++ [(c, [Reason.sceneCoverage])], st.2 ++ [c.timestamp])
          simp only [List.length_append, List.length_singleton] at h4
          push_cast at h4
          omega

/-- The per-scene selection draws from the scene's candidates and keeps
its accepted timestamps pairwise at least `gap` apart. -/
theorem selectScene_invariant (gap : ℚ) (minPer maxPer : ℤ) (cs : List Candidate) :
    (∀ p ∈ selectScene gap minPer maxPer cs, p.1 ∈ cs) ∧
    (selectScene gap minPer maxPer cs).Pairwise
      (fun p q => gap ≤ |p.1.timestamp - q.1.timestamp|) := by
  have hpool : ∀ pr ∈ groupByKey Candidate.frame_category
      (List.insertionSort qualityGE cs), ∀ c ∈ pr.2,
      c ∈ List.insertionSort qualityGE cs := by
    intro pr hpr c hc
    exact ((groupByKey_spec Candidate.frame_category _ pr.1 pr.2
      (by rwa [Prod.mk.eta])).2 c hc).1
  have hcat := categoryPass_inv gap maxPer
    (groupByKey Candidate.frame_category (List.insertionSort qualityGE cs))
    (List.insertionSort qualityGE cs) hpool
  have hfinal : SelInvariant gap (List.insertionSort qualityGE cs)
      (if ((categoryPass gap maxPer (groupByKey Candidate.frame_category
          (List.insertionSort qualityGE cs))).1.length : ℤ) < minPer then
        fillPass gap minPer (List.insertionSort qualityGE cs)
          (categoryPass gap maxPer (groupByKey Candidate.frame_category
            (List.insertionSort qualityGE cs)))
      else categoryPass gap maxPer (groupByKey Candidate.frame_category
        (List.insertionSort qualityGE cs))) := by
    by_cases hc : ((categoryPass gap maxPer (groupByKey Candidate.frame_category
        (List.insertionSort qualityGE cs))).1.length : ℤ) < minPer
    · rw [if_pos hc]
      exact fillPass_inv gap minPer (List.insertionSort qualityGE cs)
        (List.insertionSort qualityGE cs) (fun c hc' => hc') _ hcat
    · rw [if_neg hc]
      exact hcat
  obtain ⟨hsync, hgap, hmem⟩ := hfinal
  constructor
  · intro p hp
    have := hmem p (by simpa [selectScene] using hp)
    rwa [List.mem_insertionSort] at this
  · have hp2 : (selectScene gap minPer maxPer cs).Pairwise
        (fun p q => gap ≤ |p.1.timestamp - q.1.timestamp|) := by
      have := hgap
      rw [hsync, List.pairwise_map] at this
      simpa [selectScene] using this
    exact hp2

/-- The per-scene selection length is bounded by
`max(min_per_scene, max_per_scene, 0)`. -/
theorem selectScene_length (gap : ℚ) (minPer maxPer : ℤ) (cs : List Candidate) :
    ((selectScene gap minPer maxPer cs).length : ℤ) ≤ max minPer (max maxPer 0) := by
  have hcat := categoryPass_length gap maxPer
    (groupByKey Candidate.frame_category (List.insertionSort qualityGE cs))
  simp only [selectScene]
  by_cases hc : ((categoryPass gap maxPer (groupByKey Candidate.frame_category
      (List.insertionSort qualityGE cs))).1.length : ℤ) < minPer
  · rw [if_pos hc]
    have hfill := fillPass_length gap minPer (List.insertionSort qualityGE cs)
      (categoryPass gap maxPer (groupByKey Candidate.frame_category
        (List.insertionSort qualityGE cs)))
    omega
  · rw [if_neg hc]
    omega

/-- All pairs of candidates accepted by `VarietySelector.select` in the
same scene are at least `min_timestamp_gap = 1.0`s apart, whether they
were accepted by the category pass or the minimum-fill pass. -/
theorem select_gap_pairwise (cands : List Candidate) (minPer maxPer : ℤ) :
    (VarietySelector.select cands minPer maxPer).Pairwise
      (fun p q => p.1.scene_index = q.1.scene_index →
        1 ≤ |p.1.timestamp - q.1.timestamp|) := by
  unfold VarietySelector.select
  rw [List.pairwise_flatten]
  constructor
  · intro l hl
    rw [List.mem_map] at hl
    obtain ⟨g, hg, rfl⟩ := hl
    refine List.Pairwise.imp ?_ ((selectScene_invariant 1 minPer maxPer g.2).2)
    intro p q h _
    exact h
  · rw [List.pairwise_map]
    refine List.Pairwise.imp_of_mem ?_
      (groupByKey_keys_pairwise Candidate.scene_index cands)
    intro a b ha hb hne p hp q hq hscene
    exfalso
    have hp1 := (selectScene_invariant 1 minPer maxPer a.2).1 p hp
    have hq1 := (selectScene_invariant 1 minPer maxPer b.2).1 q hq
    have hpa := ((groupByKey_spec Candidate.scene_index cands a.1 a.2
      (by rwa [Prod.mk.eta])).2 p.1 hp1).2
    have hqb := ((groupByKey_spec Candidate.scene_index cands b.1 b.2
      (by rwa [Prod.mk.eta])).2 q.1 hq1).2
    exact hne (by rw [← hpa, ← hqb, hscene])

/-- C1 (amended): for every input and every scene, `VarietySelector.select`
returns at most `max(min_per_scene, max_per_scene, 0)` candidates for that
scene.  In particular the `max_per_scene` cap holds whenever
`min_per_scene ≤ max_per_scene` (as with the defaults 1 and 3), but the
minimum-fill pass is bounded only by `min_per_scene`, so the cap fails
when `min_per_scene > max_per_scene`. -/
theorem variety_select_scene_cap (cands : List Candidate) (minPer maxPer : ℤ)
    (s : ℤ) :
    (((VarietySelector.select cands minPer maxPer).filter
        (fun p => p.1.scene_index = s)).length : ℤ) ≤ max minPer (max maxPer 0) := by
  unfold VarietySelector.select
  suffices h : ∀ (gs : List (ℤ × List Candidate)),
      (∀ pr ∈ gs, ∀ c ∈ pr.2, c.scene_index = pr.1) →
      gs.Pairwise (fun p q => p.1 ≠ q.1) →
      (((gs.map (fun g => selectScene 1 minPer maxPer g.2)).flatten.filter
          (fun p => p.1.scene_index = s)).length : ℤ) ≤ max minPer (max maxPer 0) by
    refine h (groupByKey Candidate.scene_index cands) ?_
      (groupByKey_keys_pairwise Candidate.scene_index cands)
    intro pr hpr c hc
    exact ((groupByKey_spec Candidate.scene_index cands pr.1 pr.2
      (by rwa [Prod.mk.eta])).2 c hc).2
  intro gs
  induction gs with
  | nil =>
    intro _ _
    simp only [List.map_nil, List.flatten_nil, List.filter_nil, List.length_nil]
    omega
  | cons g gs ih =>
    intro hmemspec hpair
    rw [List.map_cons, List.flatten_cons, List.filter_append, List.length_append]
    by_cases hg : g.1 = s
    · have htail : ((gs.map (fun g => selectScene 1 minPer maxPer g.2)).flatten.filter
          (fun p => p.1.scene_index = s)) = [] := by
        rw [List.filter_eq_nil]
        intro p hp
        rw [List.mem_flatten] at hp
        obtain ⟨l, hl, hpl⟩ := hp
        rw [List.mem_map] at hl
        obtain ⟨pr, hpr, rfl⟩ := hl
        have h1 := (selectScene_invariant 1 minPer maxPer pr.2).1 p hpl
        have h2 := hmemspec pr (List.mem_cons_of_mem _ hpr) p.1 h1
        have hne : pr.1 ≠ s := by
          have h3 := (List.pairwise_cons.mp hpair).1 pr hpr
          rw [← hg]
          exact fun hh => h3 hh.symm
        simp [h2, hne]
      rw [htail]
      simp only [List.length_nil, Nat.cast_zero, add_zero]
      have hle : ((selectScene 1 minPer maxPer g.2).filter
          (fun p => decide (p.1.scene_index = s))).length ≤
          (selectScene 1 minPer maxPer g.2).length :=
        List.length_filter_le _ _
      have hbound := selectScene_length 1 minPer maxPer g.2
      omega
    · have hhead : ((selectScene 1 minPer maxPer g.2).filter
          (fun p => p.1.scene_index = s)) = [] := by
        rw [List.filter_eq_nil]
        intro p hp
        have h1 := (selectScene_invariant 1 minPer maxPer g.2).1 p hp
        have h2 := hmemspec g (List.mem_cons_self _ _) p.1 h1
        simp [h2, hg]
      rw [hhead]
      simp only [List.length_nil, Nat.cast_zero, zero_add]
      exact ih (fun pr hpr => hmemspec pr (List.mem_cons_of_mem _ hpr))
        (List.pairwise_cons.mp hpair).2

/-- Counterexample for C1 as stated: with `min_per_scene = 2` and
`max_per_scene = 1`, two well-spaced candidates of scene 0 are both
selected — the category pass selects one (reaching the cap) and the
minimum-fill pass, bounded only by `min_per_scene`, adds a second — so
the scene receives more than `max_per_scene` candidates. -/
theorem variety_select_cap_counterexample :
    ¬ ((((VarietySelector.select
        [⟨0, 0, 0, 0, [], [], [], false, "people_face", 0, false, none, 0⟩,
         ⟨0, 5, 0, 0, [], [], [], false, "people_face", 0, false, none, 0⟩] 2 1).filter
      (fun p => p.1.scene_index = 0)).length : ℤ) ≤ 1) := by
  set c1 : Candidate :=
    ⟨0, 0, 0, 0, [], [], [], false, "people_face", 0, false, none, 0⟩ with hc1
  set c2 : Candidate :=
    ⟨0, 5, 0, 0, [], [], [], false, "people_face", 0, false, none, 0⟩ with hc2
  have hq1 : compute_quality_score c1 = 0 := by
    rw [hc1]; norm_num [compute_quality_score]
  have hq2 : compute_quality_score c2 = 0 := by
    rw [hc2]; norm_num [compute_quality_score]
  have hgroup : groupByKey Candidate.scene_index [c1, c2] = [(0, [c1, c2])] := by
    rw [hc1, hc2]; simp [groupByKey]
  have hsort : List.insertionSort qualityGE [c1, c2] = [c1, c2] := by
    simp [List.insertionSort, List.orderedInsert, qualityGE, hq1, hq2]
  have hbycat : groupByKey Candidate.frame_category [c1, c2] =
      [("people_face", [c1, c2])] := by
    rw [hc1, hc2]; simp [groupByKey]
  have hcat : categoryPass 1 1 [("people_face", [c1, c2])] =
      ([(c1, [Reason.best "people_face", Reason.score 0])], [c1.timestamp]) := by
    simp [categoryPass, categoryPriority, catStep, tryPick, tooCloseB, hq1,
      List.find?]
  have hfill : fillPass 1 2 [c1, c2]
      ([(c1, [Reason.best "people_face", Reason.score 0])], [c1.timestamp]) =
      ([(c1, [Reason.best "people_face", Reason.score 0]),
        (c2, [Reason.sceneCoverage])], [c1.timestamp, c2.timestamp]) := by
    have hne : ¬ (c2 = c1) := by rw [hc1, hc2]; simp
    have hfar : ¬ (|c2.timestamp - c1.timestamp| < 1) := by
      rw [hc1, hc2]; norm_num
    simp [fillPass, tooCloseB, hne, hfar]
  have hscene : selectScene 1 2 1 [c1, c2] =
      [(c1, [Reason.best "people_face", Reason.score 0]),
       (c2, [Reason.sceneCoverage])] := by
    simp only [selectScene, hsort, hbycat, hcat]
    norm_num [hfill]
  show ¬ ((((VarietySelector.select [c1, c2] 2 1).filter
      (fun p => p.1.scene_index = 0)).length : ℤ) ≤ 1)
  unfold VarietySelector.select
  rw [hgroup]
  simp only [List.map_cons, List.map_nil, List.flatten_cons, List.flatten_nil,
    List.append_nil, hscene]
  rw [hc1, hc2]
  simp

/-- C2: for every pair of candidates accepted by `VarietySelector.select`
in the same scene, the timestamps differ by at least
`min_timestamp_gap = 1.0`s whenever neither was accepted via the
minimum-fill relaxation (reason `scene_coverage`); the exemption is never
needed, but the claim allows it. -/
theorem variety_select_spacing (cands : List Candidate) (minPer maxPer : ℤ) :
    (VarietySelector.select cands minPer maxPer).Pairwise
      (fun p q => p.1.scene_index = q.1.scene_index →
        Reason.sceneCoverage ∉ p.2 → Reason.sceneCoverage ∉ q.2 →
        1 ≤ |p.1.timestamp - q.1.timestamp|) := by
  refine List.Pairwise.imp ?_ (select_gap_pairwise cands minPer maxPer)
  intro p q h hs _ _
  exact h hs

/-- C10: every pair of candidates accepted in the same scene — including
those accepted during the minimum-fill pass with reason `scene_coverage` —
is at least `min_timestamp_gap = 1.0`s apart: the fill pass re-checks the
gap, so the spacing bound holds with no exemption. -/
theorem variety_select_spacing_all (cands : List Candidate) (minPer maxPer : ℤ) :
    (VarietySelector.select cands minPer maxPer).Pairwise
      (fun p q => p.1.scene_index = q.1.scene_index →
        1 ≤ |p.1.timestamp - q.1.timestamp|) :=
  select_gap_pairwise cands minPer maxPer

/-- Every frame emitted by the interval-sampling loop lies in
`[cur, stop)`. -/
theorem sampleLoop_bounds_aux (stop step : ℕ) :
    ∀ (n cur : ℕ), stop - cur ≤ n →
      ∀ x ∈ sampleLoop cur stop step, cur ≤ x ∧ x < stop := by
  intro n
  induction n with
  | zero =>
    intro cur h x hx
    have hcond : ¬ (cur < stop ∧ 0 < step) := by omega
    rw [sampleLoop, dif_neg hcond] at hx
    simp at hx
  | succ n ih =>
    intro cur h x hx
    by_cases hcond : cur < stop ∧ 0 < step
    · rw [sampleLoop, dif_pos hcond] at hx
      rcases List.mem_cons.mp hx with rfl | hx
      · omega
      · have h2 := ih (cur + step) (by omega) x hx
        omega
    · rw [sampleLoop, dif_neg hcond] at hx
      simp at hx

/-- Every frame emitted by the interval-sampling loop lies in
`[cur, stop)`. -/
theorem sampleLoop_bounds (cur stop step : ℕ) :
    ∀ x ∈ sampleLoop cur stop step, cur ≤ x ∧ x < stop :=
  sampleLoop_bounds_aux stop step (stop - cur) cur le_rfl

/-- `sortDedup` preserves membership. -/
theorem sortDedup_mem (l : List ℕ) (x : ℕ) : x ∈ sortDedup l ↔ x ∈ l := by
  rw [sortDedup, List.mem_dedup, List.mem_insertionSort]

/-- Frames already registered survive `addFrames`. -/
theorem addFrames_sub_acc (total idx : ℕ) :
    ∀ (cs : List ℕ) (acc : List (ℕ × ℕ)) (p : ℕ × ℕ),
      p ∈ acc → p ∈ addFrames total idx cs acc := by
  intro cs
  induction cs with
  | nil => intro acc p hp; exact hp
  | cons f rest ih =>
    intro acc p hp
    simp only [addFrames, List.foldl_cons] at ih ⊢
    by_cases hcond : f < total ∧ ∀ q ∈ acc, q.1 ≠ f
    · rw [if_pos hcond]
      exact ih _ p (List.mem_append_left _ hp)
    · rw [if_neg hcond]
      exact ih _ p hp

/-- Every frame registered by `addFrames` either was already registered
or comes from the candidate list, carries this scene's index, and is in
range. -/
theorem addFrames_mem (total idx : ℕ) :
    ∀ (cs : List ℕ) (acc : List (ℕ × ℕ)) (p : ℕ × ℕ),
      p ∈ addFrames total idx cs acc →
      p ∈ acc ∨ (p.1 ∈ cs ∧ p.2 = idx ∧ p.1 < total) := by
  intro cs
  induction cs with
  | nil => intro acc p hp; exact Or.inl hp
  | cons f rest ih =>
    intro acc p hp
    simp only [addFrames, List.foldl_cons] at hp
    have h2 := ih _ p hp
    rcases h2 with h2 | h2
    · by_cases hcond : f < total ∧ ∀ q ∈ acc, q.1 ≠ f
      · rw [if_pos hcond] at h2
        rcases List.mem_append.mp h2 with h3 | h3
        · exact Or.inl h3
        · rw [List.mem_singleton] at h3
          subst h3
          exact Or.inr ⟨List.mem_cons_self _ _, rfl, hcond.1⟩
      · rw [if_neg hcond] at h2
        exact Or.inl h2
    · exact Or.inr ⟨List.mem_cons_of_mem _ h2.1, h2.2⟩

/-- A candidate frame in range ends up registered by `addFrames`. -/
theorem addFrames_mem_frames (total idx : ℕ) :
    ∀ (cs : List ℕ) (acc : List (ℕ × ℕ)) (f : ℕ), f ∈ cs → f < total →
      f ∈ (addFrames total idx cs acc).map Prod.fst := by
  intro cs
  induction cs with
  | nil => intro acc f hf _; simp at hf
  | cons g rest ih =>
    intro acc f hf hft
    simp only [addFrames, List.foldl_cons] at ih ⊢
    rcases List.mem_cons.mp hf with rfl | hf
    · by_cases hcond : f < total ∧ ∀ q ∈ acc, q.1 ≠ f
      · rw [if_pos hcond]
        have h1 : (f, idx) ∈ addFrames total idx rest (acc ++ [(f, idx)]) :=
          addFrames_sub_acc total idx rest _ (f, idx)
            (List.mem_append_right _ (List.mem_singleton.mpr rfl))
        simp only [addFrames] at h1
        exact List.mem_map.mpr ⟨(f, idx), h1, rfl⟩
      · rw [if_neg hcond]
        have h1 : ∃ q ∈ acc, q.1 = f := by
          by_contra h2
          push_neg at h2
          exact hcond ⟨hft, h2⟩
        obtain ⟨q, hq, hq1⟩ := h1
        have h3 : q ∈ addFrames total idx rest acc :=
          addFrames_sub_acc total idx rest acc q hq
        simp only [addFrames] at h3
        exact List.mem_map.mpr ⟨q, h3, hq1⟩
    · by_cases hcond : g < total ∧ ∀ q ∈ acc, q.1 ≠ g
      · rw [if_pos hcond]
        exact ih _ f hf hft
      · rw [if_neg hcond]
        exact ih _ f hf hft

/-- `addFrames` keeps the registered frame numbers duplicate-free. -/
theorem addFrames_nodup (total idx : ℕ) :
    ∀ (cs : List ℕ) (acc : List (ℕ × ℕ)), (acc.map Prod.fst).Nodup →
      ((addFrames total idx cs acc).map Prod.fst).Nodup := by
  intro cs
  induction cs with
  | nil => intro acc h; exact h
  | cons f rest ih =>
    intro acc h
    simp only [addFrames, List.foldl_cons] at ih ⊢
    by_cases hcond : f < total ∧ ∀ q ∈ acc, q.1 ≠ f
    · rw [if_pos hcond]
      apply ih
      rw [List.map_append]
      simp only [List.map_cons, List.map_nil]
      rw [List.nodup_append]
      refine ⟨h, List.nodup_singleton _, ?_⟩
      intro a ha hb
      rw [List.mem_singleton] at hb
      subst hb
      rw [List.mem_map] at ha
      obtain ⟨q, hq, hq1⟩ := ha
      exact hcond.2 q hq hq1
    · rw [if_neg hcond]
      exact ih _ h

/-- Three pairwise-distinct members force length at least 3. -/
theorem three_le_length_of_mem {l : List ℕ} {a b c : ℕ}
    (ha : a ∈ l) (hb : b ∈ l) (hc : c ∈ l)
    (hab : a ≠ b) (hac : a ≠ c) (hbc : b ≠ c) : 3 ≤ l.length := by
  have h1 : ({a, b, c} : Finset ℕ) ⊆ l.toFinset := by
    intro x hx
    simp only [Finset.mem_insert, Finset.mem_singleton] at hx
    rcases hx with rfl | rfl | rfl <;> rwa [List.mem_toFinset]
  have h2 : ({a, b, c} : Finset ℕ).card = 3 := by
    rw [Finset.card_insert_of_not_mem (by simp [hab, hac]),
        Finset.card_insert_of_not_mem (by simp [hbc]), Finset.card_singleton]
  calc 3 = ({a, b, c} : Finset ℕ).card := h2.symm
    _ ≤ l.toFinset.card := Finset.card_le_card h1
    _ ≤ l.length := l.toFinset_card_le

/-- The three anchor frames belong to the scene's candidate set. -/
theorem sceneCandidateFrames_anchors (s e : ℕ) (fps si : ℚ) :
    s + min 3 ((e - s) / 4) ∈ sceneCandidateFrames s e fps si ∧
    (s + e) / 2 ∈ sceneCandidateFrames s e fps si ∧
    e - min 3 ((e - s) / 4) ∈ sceneCandidateFrames s e fps si := by
  simp [sceneCandidateFrames]

/-- Every frame of the scene's candidate set lies in `[s, e]`. -/
theorem sceneCandidateFrames_bounds (s e : ℕ) (fps si : ℚ) (hse : s ≤ e) :
    ∀ x ∈ sceneCandidateFrames s e fps si, s ≤ x ∧ x ≤ e := by
  intro x hx
  simp only [sceneCandidateFrames, List.mem_append] at hx
  rcases hx with hx | hx
  · simp only [List.mem_cons, List.not_mem_nil, or_false] at hx
    have ho : min 3 ((e - s) / 4) ≤ e - s := by omega
    rcases hx with rfl | rfl | rfl <;> omega
  · by_cases hdur : 1 < ((e - s : ℕ) : ℚ) / fps
    · rw [if_pos hdur] at hx
      have h1 := sampleLoop_bounds _ _ _ x hx
      omega
    · rw [if_neg hdur] at hx
      simp at hx

/-- C6 (amended): a single scene with duration at least 0.3s and at least
two frames of length (`end - start ≥ 2`, within the video) yields at
least 3 distinct frame numbers — early, midpoint, near-end — all within
`[start, end]` and attributed to the scene; a scene of length 1 can merge
the early and midpoint anchors and yield only 2 (see the counterexample);
scenes with duration below 0.3s contribute no frames at all. -/
theorem sampling_single_scene (s e : ℕ) (fps si : ℚ) (total : ℕ) :
    (2 ≤ e - s → 3/10 ≤ ((e - s : ℕ) : ℚ) / fps → e < total →
      3 ≤ (planFrames [(s, e)] fps si total).length ∧
      ((planFrames [(s, e)] fps si total).map Prod.fst).Nodup ∧
      ∀ p ∈ planFrames [(s, e)] fps si total, s ≤ p.1 ∧ p.1 ≤ e ∧ p.2 = 0) ∧
    (((e - s : ℕ) : ℚ) / fps < 3/10 → planFrames [(s, e)] fps si total = []) := by
  constructor
  · intro h2 hdur htot
    have hse : s ≤ e := by omega
    have hplan : planFrames [(s, e)] fps si total =
        addFrames total 0 (sortDedup (sceneCandidateFrames s e fps si)) [] := by
      simp only [planFrames, planAux]
      rw [if_neg (not_lt.mpr hdur)]
    have hanchors := sceneCandidateFrames_anchors s e fps si
    have hbounds := sceneCandidateFrames_bounds s e fps si hse
    have ha1 := hbounds _ hanchors.1
    have ha2 := hbounds _ hanchors.2.1
    have ha3 := hbounds _ hanchors.2.2
    have hdist : s + min 3 ((e - s) / 4) ≠ (s + e) / 2 ∧
        (s + e) / 2 ≠ e - min 3 ((e - s) / 4) ∧
        s + min 3 ((e - s) / 4) ≠ e - min 3 ((e - s) / 4) := by omega
    rw [hplan]
    refine ⟨?_, ?_, ?_⟩
    · have hm1 := addFrames_mem_frames total 0
        (sortDedup (sceneCandidateFrames s e fps si)) [] _
        ((sortDedup_mem _ _).mpr hanchors.1) (by omega)
      have hm2 := addFrames_mem_frames total 0
        (sortDedup (sceneCandidateFrames s e fps si)) [] _
        ((sortDedup_mem _ _).mpr hanchors.2.1) (by omega)
      have hm3 := addFrames_mem_frames total 0
        (sortDedup (sceneCandidateFrames s e fps si)) [] _
        ((sortDedup_mem _ _).mpr hanchors.2.2) (by omega)
      have h3 := three_le_length_of_mem hm1 hm2 hm3 hdist.1 hdist.2.2 hdist.2.1
      rwa [List.length_map] at h3
    · exact addFrames_nodup total 0 _ [] (by simp)
    · intro p hp
      rcases addFrames_mem total 0 _ [] p hp with hp | hp
      · simp at hp
      · have h4 := hbounds p.1 ((sortDedup_mem _ _).mp hp.1)
        exact ⟨h4.1, h4.2, hp.2.1⟩
  · intro hdur
    simp only [planFrames, planAux]
    rw [if_pos hdur]

/-- Witness for C6 (amended): a 2-frame scene at 3 fps (duration 2/3 s). -/
theorem sampling_single_scene_witness :
    (2 ≤ 2 - 0) ∧ ((3:ℚ)/10 ≤ ((2 - 0 : ℕ) : ℚ) / 3) ∧ (2 < 100) ∧
      3 ≤ (planFrames [(0, 2)] 3 (3/2) 100).length ∧
      ∀ p ∈ planFrames [(0, 2)] 3 (3/2) 100, 0 ≤ p.1 ∧ p.1 ≤ 2 ∧ p.2 = 0 :=
  ⟨by norm_num, by norm_num, by norm_num,
   ((sampling_single_scene 0 2 3 (3/2) 100).1 (by norm_num) (by norm_num)
     (by norm_num)).1,
   ((sampling_single_scene 0 2 3 (3/2) 100).1 (by norm_num) (by norm_num)
     (by norm_num)).2.2⟩

/-- Counterexample for C6 as stated: the scene `(0, 1)` at 3 fps lasts
1/3 s ≥ 0.3 s, yet the early anchor and the midpoint coincide (frame 0),
so the sampling step emits only the 2 distinct frames 0 and 1. -/
theorem sampling_counterexample :
    (3/10 : ℚ) ≤ ((1 - 0 : ℕ) : ℚ) / 3 ∧
      planFrames [(0, 1)] 3 (3/2) 100 = [(0, 0), (1, 0)] ∧
      ¬ 3 ≤ ([((0:ℕ), (0:ℕ)), (1, 0)]).length := by
  refine ⟨by norm_num, ?_, by norm_num⟩
  have hcs : sceneCandidateFrames 0 1 3 (3/2) = [0, 0, 1] := by
    simp only [sceneCandidateFrames]
    rw [if_neg (by norm_num)]
    norm_num
  simp only [planFrames, planAux]
  rw [if_neg (by norm_num), hcs]
  decide

/-- If any of the seven `should_keep` criteria holds, the accumulated
reason list is non-empty. -/
theorem shouldKeepReasons_ne_nil (st : SelectorState) (c : Candidate)
    (sel : List Candidate)
    (hcrit :
      (∃ pr ∈ c.cluster_labels, 0 ≤ pr.2 ∧ pr.2 ∉ st.seen_faces) ∨
      classify_composition c ∉
        ((st.seen_compositions.find? (fun p => p.1 = c.scene_index)).map
          Prod.snd).getD [] ∨
      3/5 < maxSmileOf c ∨
      c.is_audio_peak = true ∨
      ((c.audio_type = some "applause" ∨ c.audio_type = some "music") ∧
        1/2 < c.audio_intensity) ∨
      500 < c.sharpness_score ∨
      (c.is_broll = true ∧ c.tags.dedup ≠ [] ∧
        ∀ s ∈ sel, s.is_broll = true → tagOverlap c.tags s.tags < 1/2)) :
    shouldKeepReasons st c sel ≠ [] := by
  rcases hcrit with ha | hb | hc' | hd | he | hf | hg
  · obtain ⟨pr, hpr, hge, hns⟩ := ha
    have hmem : pr.2 ∈ (get_face_clusters c).filter
        (fun cid => decide (cid ∉ st.seen_faces)) := by
      rw [List.mem_filter]
      refine ⟨?_, by simpa using hns⟩
      rw [get_face_clusters, List.mem_filter]
      exact ⟨List.mem_map.mpr ⟨pr, hpr, rfl⟩, by simpa using hge⟩
    simp only [shouldKeepReasons]
    rw [if_pos (List.ne_nil_of_mem hmem)]
    simp
  · simp only [shouldKeepReasons]
    rw [if_pos hb]
    simp
  · simp only [shouldKeepReasons]
    rw [if_pos hc']
    simp
  · simp only [shouldKeepReasons]
    rw [if_pos hd]
    simp
  · simp only [shouldKeepReasons]
    rw [if_pos he]
    simp
  · simp only [shouldKeepReasons]
    rw [if_pos hf]
    simp
  · have hsim : (sel.any
        (fun s => s.is_broll && decide (1/2 < tagOverlap c.tags s.tags))) = false := by
      rw [List.any_eq_false]
      intro s hs
      simp only [Bool.and_eq_true, decide_eq_true_eq, not_and]
      intro hbroll
      exact not_lt.mpr (le_of_lt (hg.2.2 s hs hbroll))
    have hsim' : ¬ ((sel.any
        (fun s => s.is_broll && decide (1/2 < tagOverlap c.tags s.tags))) = true) := by
      rw [hsim]
      exact Bool.false_ne_true
    simp only [shouldKeepReasons]
    rw [if_pos (And.intro hg.1 (And.intro hsim' hg.2.1))]
    simp

/-- C7 (amended): provided the candidate is at least `min_timestamp_gap`
away from every already-selected candidate of its scene (the code's first
check, which otherwise rejects regardless of merit), `should_keep`
returns true with at least one reason whenever any of (a)-(g) holds,
where (g) — b-roll with below-50% Jaccard tag overlap against all
previously accepted b-roll — additionally requires a non-empty tag set. -/
theorem should_keep_criteria (st : SelectorState) (c : Candidate)
    (sel : List Candidate)
    (hgap : ∀ s ∈ sel, s.scene_index = c.scene_index →
      st.min_timestamp_gap ≤ |c.timestamp - s.timestamp|)
    (hcrit :
      (∃ pr ∈ c.cluster_labels, 0 ≤ pr.2 ∧ pr.2 ∉ st.seen_faces) ∨
      classify_composition c ∉
        ((st.seen_compositions.find? (fun p => p.1 = c.scene_index)).map
          Prod.snd).getD [] ∨
      3/5 < maxSmileOf c ∨
      c.is_audio_peak = true ∨
      ((c.audio_type = some "applause" ∨ c.audio_type = some "music") ∧
        1/2 < c.audio_intensity) ∨
      500 < c.sharpness_score ∨
      (c.is_broll = true ∧ c.tags.dedup ≠ [] ∧
        ∀ s ∈ sel, s.is_broll = true → tagOverlap c.tags s.tags < 1/2)) :
    (should_keep st c sel).1 = true ∧ (should_keep st c sel).2 ≠ [] := by
  have hany : ((sel.filter (fun s => s.scene_index = c.scene_index)).map
      (fun s => s.timestamp)).any
      (fun t => decide (|c.timestamp - t| < st.min_timestamp_gap)) = false := by
    rw [List.any_eq_false]
    intro t ht
    rw [List.mem_map] at ht
    obtain ⟨s, hs, rfl⟩ := ht
    have h1 := List.of_mem_filter hs
    have h2 := hgap s (List.mem_of_mem_filter hs) (by simpa using h1)
    simp [not_lt, h2]
  have hne := shouldKeepReasons_ne_nil st c sel hcrit
  simp only [should_keep]
  rw [if_neg (by rw [hany]; simp)]
  exact ⟨by simpa using hne, hne⟩

/-- Witness for C7 (amended): a very sharp candidate (criterion (f))
against an empty selection. -/
theorem should_keep_criteria_witness :
    (should_keep SelectorState.init
        ⟨0, 1, 0, 600, [], [], [], false, "people_face", 0, false, none, 0⟩
        []).1 = true ∧
      (should_keep SelectorState.init
        ⟨0, 1, 0, 600, [], [], [], false, "people_face", 0, false, none, 0⟩
        []).2 ≠ [] :=
  should_keep_criteria SelectorState.init
    ⟨0, 1, 0, 600, [], [], [], false, "people_face", 0, false, none, 0⟩ []
    (by intro s hs; simp at hs)
    (Or.inr (Or.inr (Or.inr (Or.inr (Or.inr (Or.inl (by norm_num)))))))

/-- Counterexample for C7 as stated: a candidate with
`sharpness_score = 600 > 500` (criterion (f)) that sits 0.5s from an
already-selected candidate of the same scene is rejected outright with
reason `too_close_to_existing`. -/
theorem should_keep_too_close_counterexample :
    (500 : ℚ) < 600 ∧
      (should_keep SelectorState.init
        ⟨0, 1, 0, 600, [], [], [], false, "people_face", 0, false, none, 0⟩
        [⟨0, 1/2, 0, 0, [], [], [], false, "people_face", 0, false, none, 0⟩]).1 =
        false := by
  refine ⟨by norm_num, ?_⟩
  have habs : |(1:ℚ) - 2⁻¹| < 1 := by
    rw [abs_of_pos (by norm_num : (0:ℚ) < 1 - 2⁻¹)]
    norm_num
  have hcond : (([(⟨0, 1/2, 0, 0, [], [], [], false, "people_face", 0, false,
      none, 0⟩ : Candidate)].filter
        (fun s => s.scene_index = (0:ℤ))).map (fun s => s.timestamp)).any
      (fun t => decide (|(1:ℚ) - t| < 1)) = true := by
    simp [List.filter, habs]
  simp only [should_keep, SelectorState.init]
  rw [if_pos hcond]
